import Mathlib

/-!
Shallow embedding of the consensus-orchestration core of the
Quantum Fractal AI Editor repository.

The embedding follows the source files:
* `App.tsx` — `runEnhancedOrchestrator` (round scheduler) and
  `assembleFinalAnswer` (consensus assembler);
* `utils/helpers.ts` — `generateFractalHash`, `calculateEntropy`,
  `stripCodeBlock`;
* `services/geminiService.ts` — `runOrchestrationAgentStep`;
* `constants.ts` — `REASONING_STRATEGIES`, `INITIAL_AGENTS_STATE`.

Modelling conventions:
* JavaScript numbers holding entropies and scores are modelled as `ℚ`
  (the arithmetic performed on them is +, *, /); the Shannon-entropy
  function itself, which needs `log₂`, is modelled over `ℝ`.
* JavaScript strings are modelled as `String`, manipulated through their
  character list `String.data`; `substring`/`trim` are modelled on
  characters.
* A JavaScript object used as a string-keyed dictionary is modelled as an
  insertion-ordered association list (string keys iterate in insertion
  order), and a JavaScript `Set` as an insertion-ordered duplicate-free
  list.
* `Array.prototype.sort` is modelled as a stable sort
  (`List.insertionSort`), as guaranteed by ECMAScript 2019 and later.
* The SHA-256 digest and the external text-generation collaborator are
  opaque to the algorithm and are passed as function parameters.
-/

namespace QuantumEditor

/-- `AgentInfo` from `types.ts`. -/
structure AgentInfo where
  id : String
  origin : String
deriving DecidableEq, Repr

/-- `CandidateFragment` from `types.ts`; `entropy` is modelled as `ℚ`,
`timestamp` (`Date.now()`) as `Nat`. -/
structure CandidateFragment where
  agentId : String
  origin : String
  round : Nat
  candidate : String
  entropy : ℚ
  timestamp : Nat
deriving DecidableEq, Repr

instance : Inhabited CandidateFragment :=
  ⟨{ agentId := "", origin := "", round := 0, candidate := "", entropy := 0, timestamp := 0 }⟩

/-- `CandidateGroup` from `types.ts`. -/
structure CandidateGroup where
  key : String
  candidates : List CandidateFragment
  score : ℚ
  agentCount : Nat
  roundCount : Nat
  avgEntropy : ℚ
deriving DecidableEq, Repr

/-- `ConsensusResult` from `types.ts`: `score`, `avgEntropy` and
`rootEntropy` face the UI as strings (`toFixed(3)` renderings). -/
structure ConsensusResult where
  genesis : String
  selectedCandidate : String
  score : String
  agentCount : Nat
  roundCount : Nat
  avgEntropy : String
  rootAgent : String
  rootEntropy : String
  allGroups : List CandidateGroup
deriving DecidableEq, Repr

/-- JavaScript `Set.add`: append the element iff it is not present,
preserving insertion order. -/
def addElem {α : Type} [DecidableEq α] (l : List α) (a : α) : List α :=
  if a ∈ l then l else l ++ [a]

/-- Insertion-ordered deduplication: the iteration order of a JavaScript
`Set` (or of the string keys of an object) built from a list. -/
def firstSeenDedup {α : Type} [DecidableEq α] (l : List α) : List α :=
  l.foldl addElem []

/-- The grouping key of `assembleFinalAnswer`:
`candidate.candidate.substring(0, 100)`. -/
def prefixKey (c : CandidateFragment) : String :=
  String.mk (c.candidate.data.take 100)

/-- The per-key accumulator object of `assembleFinalAnswer`:
`{ candidates, totalEntropy, agents: Set, rounds: Set }`. -/
structure GroupAcc where
  candidates : List CandidateFragment
  totalEntropy : ℚ
  agents : List String
  rounds : List Nat
deriving DecidableEq, Repr

/-- The four mutations done on a group for a fragment:
`candidates.push`, `totalEntropy +=`, `agents.add`, `rounds.add`. -/
def pushFrag (g : GroupAcc) (c : CandidateFragment) : GroupAcc :=
  { candidates := g.candidates ++ [c]
    totalEntropy := g.totalEntropy + c.entropy
    agents := addElem g.agents c.agentId
    rounds := addElem g.rounds c.round }

/-- One iteration of the grouping loop of `assembleFinalAnswer`: update
the entry for the fragment's key, creating it at the end when absent
(JavaScript objects keep string keys in insertion order). -/
def insertFragment : List (String × GroupAcc) → CandidateFragment → List (String × GroupAcc)
  | [], c => [(prefixKey c, pushFrag ⟨[], 0, [], []⟩ c)]
  | kg :: rest, c =>
      if kg.1 = prefixKey c then (kg.1, pushFrag kg.2 c) :: rest
      else kg :: insertFragment rest c

/-- The `candidateGroups` object after the grouping loop. -/
def groupFragments (fs : List CandidateFragment) : List (String × GroupAcc) :=
  fs.foldl insertFragment []

/-- The `scoredGroups.map` body: group statistics and score. -/
def scoreGroup (kg : String × GroupAcc) : CandidateGroup :=
  let agentCount := kg.2.agents.length
  let roundCount := kg.2.rounds.length
  let avgEntropy := kg.2.totalEntropy / (kg.2.candidates.length : ℚ)
  { key := kg.1
    candidates := kg.2.candidates
    agentCount := agentCount
    roundCount := roundCount
    avgEntropy := avgEntropy
    score := (agentCount : ℚ) * 2 + (roundCount : ℚ) * (3/2) + avgEntropy * 3 }

/-- `Object.entries(candidateGroups).map(...)`. -/
def scoredGroupsOf (fs : List CandidateFragment) : List CandidateGroup :=
  (groupFragments fs).map scoreGroup

/-- The comparator `(a, b) => b.score - a.score`: `a` sorts no later than
`b` when `b.score ≤ a.score`. -/
def scoreGE (a b : CandidateGroup) : Prop := b.score ≤ a.score

instance : DecidableRel scoreGE := fun a b => inferInstanceAs (Decidable (b.score ≤ a.score))

instance : IsTotal CandidateGroup scoreGE := ⟨fun a b => le_total b.score a.score⟩

instance : IsTrans CandidateGroup scoreGE := ⟨fun _ _ _ h h' => le_trans h' h⟩

/-- `scoredGroups.sort((a, b) => b.score - a.score)`: a stable descending
sort by score. -/
def sortGroups (l : List CandidateGroup) : List CandidateGroup :=
  List.insertionSort scoreGE l

/-- `Number.prototype.toFixed(3)`: fixed three-decimal rendering of the
(idealised, rational) value, rounding half away from zero. -/
def toFixed3 (q : ℚ) : String :=
  let r : ℤ := ⌊|q| * 1000 + 1/2⌋
  let intPart := r / 1000
  let frac := (r % 1000).toNat
  let fracStr := if frac < 10 then "00" ++ toString frac
    else if frac < 100 then "0" ++ toString frac
    else toString frac
  (if q < 0 then "-" else "") ++ toString intPart ++ "." ++ fracStr

/-- `topGroup.candidates.reduce((best, current) => current.entropy > best.entropy ? current : best)`
after peeling the first element as the initial accumulator. -/
def maxEntropyFrag : CandidateFragment → List CandidateFragment → CandidateFragment
  | best, [] => best
  | best, c :: cs => maxEntropyFrag (if best.entropy < c.entropy then c else best) cs

/-- The sentinel result returned by `assembleFinalAnswer` for an empty
group list. -/
def emptyConsensus (genesis : String) : ConsensusResult :=
  { genesis := genesis
    selectedCandidate := "// No valid candidates were generated by the agents."
    score := "0"
    agentCount := 0
    roundCount := 0
    avgEntropy := "0"
    rootAgent := "N/A"
    rootEntropy := "0"
    allGroups := [] }

/-- `assembleFinalAnswer` from `App.tsx`.  The source checks
`scoredGroups.length === 0` before sorting; matching on the sorted list
is equivalent because the sort of `[]` is `[]` and the sort of a
non-empty list is non-empty.  Group candidate lists are non-empty by
construction, so the inner `[]` arm is never reached on the outputs of
`groupFragments`. -/
def assembleFinalAnswer (allCandidates : List CandidateFragment) (genesis : String) :
    ConsensusResult :=
  match sortGroups (scoredGroupsOf allCandidates) with
  | [] => emptyConsensus genesis
  | topGroup :: rest =>
    match topGroup.candidates with
    | [] => emptyConsensus genesis
    | c0 :: cs =>
      let rootCandidate := maxEntropyFrag c0 cs
      { genesis := genesis
        selectedCandidate := c0.candidate
        score := toFixed3 topGroup.score
        agentCount := topGroup.agentCount
        roundCount := topGroup.roundCount
        avgEntropy := toFixed3 topGroup.avgEntropy
        rootAgent := rootCandidate.agentId
        rootEntropy := toFixed3 rootCandidate.entropy
        allGroups := topGroup :: rest }

theorem mem_addElem {α : Type} [DecidableEq α] {l : List α} {a b : α} :
    b ∈ addElem l a ↔ b ∈ l ∨ b = a := by
  by_cases h : a ∈ l
  · simp only [addElem, if_pos h]
    exact ⟨Or.inl, fun hb => hb.elim id (fun e => e ▸ h)⟩
  · simp [addElem, if_neg h]

theorem nodup_addElem {α : Type} [DecidableEq α] {l : List α} (a : α) (h : l.Nodup) :
    (addElem l a).Nodup := by
  by_cases ha : a ∈ l
  · simpa [addElem, if_pos ha] using h
  · simp [addElem, if_neg ha, List.nodup_append, h, ha]

theorem mem_foldl_addElem {α : Type} [DecidableEq α] :
    ∀ (l acc : List α) (b : α), b ∈ l.foldl addElem acc ↔ b ∈ acc ∨ b ∈ l
  | [], acc, b => by simp
  | a :: l, acc, b => by
    rw [List.foldl_cons, mem_foldl_addElem l (addElem acc a) b, mem_addElem]
    simp only [List.mem_cons]
    tauto

theorem nodup_foldl_addElem {α : Type} [DecidableEq α] :
    ∀ (l acc : List α), acc.Nodup → (l.foldl addElem acc).Nodup
  | [], _, h => h
  | a :: l, acc, h => by
    rw [List.foldl_cons]
    exact nodup_foldl_addElem l (addElem acc a) (nodup_addElem a h)

theorem mem_firstSeenDedup {α : Type} [DecidableEq α] {l : List α} {b : α} :
    b ∈ firstSeenDedup l ↔ b ∈ l := by
  simpa [firstSeenDedup] using mem_foldl_addElem l [] b

theorem nodup_firstSeenDedup {α : Type} [DecidableEq α] (l : List α) :
    (firstSeenDedup l).Nodup :=
  nodup_foldl_addElem l [] List.nodup_nil

theorem length_firstSeenDedup {α : Type} [DecidableEq α] (l : List α) :
    (firstSeenDedup l).length = l.toFinset.card := by
  rw [← List.toFinset_card_of_nodup (nodup_firstSeenDedup l)]
  congr 1
  ext x
  simp [List.mem_toFinset, mem_firstSeenDedup]

theorem firstSeenDedup_append_singleton {α : Type} [DecidableEq α] (l : List α) (a : α) :
    firstSeenDedup (l ++ [a]) = addElem (firstSeenDedup l) a := by
  simp [firstSeenDedup, List.foldl_append]

theorem keys_insertFragment :
    ∀ (g : List (String × GroupAcc)) (c : CandidateFragment),
      (insertFragment g c).map Prod.fst = addElem (g.map Prod.fst) (prefixKey c)
  | [], c => by simp [insertFragment, addElem]
  | kg :: rest, c => by
    by_cases h : kg.1 = prefixKey c
    · have hm : prefixKey c ∈ kg.1 :: rest.map Prod.fst := by
        rw [h]; exact List.mem_cons_self _ _
      simp [insertFragment, if_pos h, addElem, if_pos hm, h]
    · have h' : ¬ (prefixKey c = kg.1) := fun e => h e.symm
      have hrec := keys_insertFragment rest c
      simp only [insertFragment, if_neg h, List.map_cons, hrec, addElem]
      by_cases hmem : prefixKey c ∈ rest.map Prod.fst
      · simp [hmem, List.mem_cons, h']
      · simp [hmem, List.mem_cons, h']

theorem mem_insertFragment :
    ∀ {g : List (String × GroupAcc)} {c : CandidateFragment} {kg' : String × GroupAcc},
      (g.map Prod.fst).Nodup → kg' ∈ insertFragment g c →
      (kg' ∈ g ∧ kg'.1 ≠ prefixKey c) ∨
      (∃ acc : GroupAcc, kg' = (prefixKey c, pushFrag acc c) ∧
        ((prefixKey c, acc) ∈ g ∨ (acc = ⟨[], 0, [], []⟩ ∧ prefixKey c ∉ g.map Prod.fst))) := by
  intro g
  induction g with
  | nil =>
    intro c kg' _ hmem
    simp only [insertFragment, List.mem_singleton] at hmem
    exact Or.inr ⟨⟨[], 0, [], []⟩, hmem, Or.inr ⟨rfl, by simp⟩⟩
  | cons kg rest ih =>
    intro c kg' hnd hmem
    rw [List.map_cons, List.nodup_cons] at hnd
    by_cases h : kg.1 = prefixKey c
    · rw [insertFragment, if_pos h] at hmem
      rcases List.mem_cons.mp hmem with rfl | hin
      · exact Or.inr ⟨kg.2, by rw [h], Or.inl (by
          have : kg = (kg.1, kg.2) := rfl
          rw [h] at this
          exact this ▸ List.mem_cons_self _ _)⟩
      · refine Or.inl ⟨List.mem_cons_of_mem _ hin, ?_⟩
        intro hk
        apply hnd.1
        have hm : kg'.1 ∈ rest.map Prod.fst := List.mem_map_of_mem Prod.fst hin
        rwa [hk, ← h] at hm
    · rw [insertFragment, if_neg h] at hmem
      rcases List.mem_cons.mp hmem with rfl | hin
      · exact Or.inl ⟨List.mem_cons_self _ _, fun e => h e⟩
      · rcases ih hnd.2 hin with ⟨hg, hne⟩ | ⟨acc, heq, hacc⟩
        · exact Or.inl ⟨List.mem_cons_of_mem _ hg, hne⟩
        · refine Or.inr ⟨acc, heq, ?_⟩
          rcases hacc with hg | ⟨hemp, hnotin⟩
          · exact Or.inl (List.mem_cons_of_mem _ hg)
          · refine Or.inr ⟨hemp, ?_⟩
            simp only [List.map_cons, List.mem_cons]
            rintro (hk | hk)
            · exact h hk.symm
            · exact hnotin hk

/-- Invariant tying the grouping accumulator to the prefix of the fragment
list already processed. -/
def GroupsInv (processed : List CandidateFragment) (groups : List (String × GroupAcc)) : Prop :=
  (groups.map Prod.fst).Nodup ∧
  groups.map Prod.fst = firstSeenDedup (processed.map prefixKey) ∧
  ∀ kg ∈ groups,
    kg.2.candidates = processed.filter (fun c => prefixKey c = kg.1) ∧
    kg.2.totalEntropy = (kg.2.candidates.map CandidateFragment.entropy).sum ∧
    kg.2.agents = firstSeenDedup (kg.2.candidates.map CandidateFragment.agentId) ∧
    kg.2.rounds = firstSeenDedup (kg.2.candidates.map CandidateFragment.round)

theorem groupsInv_step {p : List CandidateFragment} {g : List (String × GroupAcc)}
    {c : CandidateFragment} (h : GroupsInv p g) : GroupsInv (p ++ [c]) (insertFragment g c) := by
  obtain ⟨hnd, hkeys, hprops⟩ := h
  refine ⟨?_, ?_, ?_⟩
  · rw [keys_insertFragment]
    exact nodup_addElem _ hnd
  · rw [keys_insertFragment, List.map_append, List.map_singleton,
      firstSeenDedup_append_singleton, hkeys]
  · intro kg' hkg'
    rcases mem_insertFragment hnd hkg' with ⟨hin, hne⟩ | ⟨acc, rfl, hacc⟩
    · obtain ⟨hc, he, ha, hr⟩ := hprops kg' hin
      have hne' : prefixKey c ≠ kg'.1 := fun e => hne e.symm
      refine ⟨?_, he, ha, hr⟩
      rw [List.filter_append, hc]
      simp [hne']
    · rcases hacc with hin | ⟨rfl, hnotin⟩
      · obtain ⟨hc, he, ha, hr⟩ := hprops _ hin
        dsimp only at hc he ha hr
        refine ⟨?_, ?_, ?_, ?_⟩
        · show acc.candidates ++ [c] = _
          rw [List.filter_append, hc]
          simp
        · show acc.totalEntropy + c.entropy = _
          rw [he]
          simp [pushFrag]
        · show addElem acc.agents c.agentId = _
          rw [ha]
          simp [pushFrag, List.map_append, firstSeenDedup_append_singleton]
        · show addElem acc.rounds c.round = _
          rw [hr]
          simp [pushFrag, List.map_append, firstSeenDedup_append_singleton]
      · have hpf : p.filter (fun x => prefixKey x = prefixKey c) = [] := by
          rw [List.filter_eq_nil_iff]
          intro a ha hpa
          apply hnotin
          rw [hkeys, mem_firstSeenDedup]
          have heq : prefixKey a = prefixKey c := of_decide_eq_true hpa
          exact heq ▸ List.mem_map_of_mem prefixKey ha
        refine ⟨?_, ?_, ?_, ?_⟩
        · show [c] = _
          rw [List.filter_append, hpf]
          simp
        · simp [pushFrag]
        · simp [pushFrag, addElem, firstSeenDedup]
        · simp [pushFrag, addElem, firstSeenDedup]

theorem groupsInv_foldl :
    ∀ (fs p : List CandidateFragment) (g : List (String × GroupAcc)),
      GroupsInv p g → GroupsInv (p ++ fs) (fs.foldl insertFragment g)
  | [], p, g, h => by simpa using h
  | c :: fs, p, g, h => by
    have := groupsInv_foldl fs (p ++ [c]) (insertFragment g c) (groupsInv_step h)
    simpa [List.append_assoc] using this

theorem groupsInv_groupFragments (fs : List CandidateFragment) :
    GroupsInv fs (groupFragments fs) := by
  have h0 : GroupsInv [] ([] : List (String × GroupAcc)) := by
    refine ⟨by simp, by simp [firstSeenDedup], by simp⟩
  have := groupsInv_foldl fs [] [] h0
  simpa [groupFragments] using this

theorem keys_groupFragments (fs : List CandidateFragment) :
    (groupFragments fs).map Prod.fst = firstSeenDedup (fs.map prefixKey) :=
  (groupsInv_groupFragments fs).2.1

/-- Every scored group carries exactly the statistics the source computes
for it, expressed against the membership of its candidate list. -/
theorem scoredGroups_spec (fs : List CandidateFragment) :
    ∀ G ∈ scoredGroupsOf fs,
      G.candidates = fs.filter (fun c => prefixKey c = G.key) ∧
      G.agentCount = (G.candidates.map CandidateFragment.agentId).toFinset.card ∧
      G.roundCount = (G.candidates.map CandidateFragment.round).toFinset.card ∧
      G.avgEntropy =
        (G.candidates.map CandidateFragment.entropy).sum / (G.candidates.length : ℚ) ∧
      G.score = (G.agentCount : ℚ) * 2 + (G.roundCount : ℚ) * (3/2) + G.avgEntropy * 3 := by
  intro G hG
  obtain ⟨kg, hkg, rfl⟩ := List.mem_map.mp hG
  obtain ⟨hc, he, ha, hr⟩ := (groupsInv_groupFragments fs).2.2 kg hkg
  refine ⟨hc, ?_, ?_, ?_, rfl⟩
  · show kg.2.agents.length = _
    rw [ha, length_firstSeenDedup]
    rfl
  · show kg.2.rounds.length = _
    rw [hr, length_firstSeenDedup]
    rfl
  · show kg.2.totalEntropy / (kg.2.candidates.length : ℚ) = _
    rw [he]
    rfl

theorem insertFragment_ne_nil (g : List (String × GroupAcc)) (c : CandidateFragment) :
    insertFragment g c ≠ [] := by
  cases g with
  | nil => simp [insertFragment]
  | cons kg rest =>
    rw [insertFragment]
    split <;> simp

theorem foldl_insertFragment_ne_nil :
    ∀ (fs : List CandidateFragment) (g : List (String × GroupAcc)), g ≠ [] →
      fs.foldl insertFragment g ≠ []
  | [], _, h => h
  | c :: fs, g, _ => by
    rw [List.foldl_cons]
    exact foldl_insertFragment_ne_nil fs _ (insertFragment_ne_nil g c)

theorem groupFragments_ne_nil {fs : List CandidateFragment} (h : fs ≠ []) :
    groupFragments fs ≠ [] := by
  cases fs with
  | nil => exact absurd rfl h
  | cons c fs =>
    rw [groupFragments, List.foldl_cons]
    exact foldl_insertFragment_ne_nil fs _ (insertFragment_ne_nil [] c)

theorem scoredGroupsOf_ne_nil {fs : List CandidateFragment} (h : fs ≠ []) :
    scoredGroupsOf fs ≠ [] := by
  intro hm
  rw [scoredGroupsOf, List.map_eq_nil_iff] at hm
  exact groupFragments_ne_nil h hm

theorem sortGroups_perm (l : List CandidateGroup) : List.Perm (sortGroups l) l :=
  List.perm_insertionSort scoreGE l

theorem sortGroups_sorted (l : List CandidateGroup) : (sortGroups l).Pairwise scoreGE :=
  List.sorted_insertionSort scoreGE l

/-- Stability of the descending insertion at one score value: elements
skipped while inserting `a` have a strictly larger score than `a`. -/
theorem filter_score_orderedInsert (q : ℚ) (a : CandidateGroup) :
    ∀ L : List CandidateGroup,
      (List.orderedInsert scoreGE a L).filter (fun g => g.score = q) =
        if a.score = q then a :: L.filter (fun g => g.score = q)
        else L.filter (fun g => g.score = q)
  | [] => by
    by_cases haq : a.score = q <;> simp [List.orderedInsert, List.filter, haq]
  | b :: L => by
    rw [List.orderedInsert]
    by_cases hab : scoreGE a b
    · rw [if_pos hab]
      by_cases haq : a.score = q <;> simp [List.filter_cons, haq]
    · rw [if_neg hab, List.filter_cons, List.filter_cons,
        filter_score_orderedInsert q a L]
      by_cases haq : a.score = q
      · have hbq : ¬ (b.score = q) := by
          intro hb
          exact hab (le_of_eq (haq ▸ hb))
        simp [haq, hbq]
      · simp [haq]

/-- Stability of the stable descending sort: at any fixed score, the
sorted list lists the groups in their original (insertion) order. -/
theorem filter_score_sortGroups (q : ℚ) :
    ∀ l : List CandidateGroup,
      (sortGroups l).filter (fun g => g.score = q) = l.filter (fun g => g.score = q)
  | [] => rfl
  | a :: l => by
    rw [sortGroups, List.insertionSort, filter_score_orderedInsert, List.filter_cons]
    have ih := filter_score_sortGroups q l
    rw [sortGroups] at ih
    by_cases haq : a.score = q <;> simp [haq, ih]

theorem maxEntropyFrag_mem : ∀ (cs : List CandidateFragment) (best : CandidateFragment),
    maxEntropyFrag best cs ∈ best :: cs
  | [], _ => List.mem_singleton.mpr rfl
  | c :: cs, best => by
    rw [maxEntropyFrag]
    have h := maxEntropyFrag_mem cs (if best.entropy < c.entropy then c else best)
    rcases List.mem_cons.mp h with h1 | h1
    · rw [h1]
      split <;> simp
    · simp [List.mem_cons, h1]

theorem maxEntropyFrag_le : ∀ (cs : List CandidateFragment) (best x : CandidateFragment),
    x ∈ best :: cs → x.entropy ≤ (maxEntropyFrag best cs).entropy
  | [], best, x, hx => by
    rw [List.mem_singleton] at hx
    exact hx ▸ le_refl _
  | c :: cs, best, x, hx => by
    rw [maxEntropyFrag]
    have h1 : best.entropy ≤ (if best.entropy < c.entropy then c else best).entropy := by
      by_cases hlt : best.entropy < c.entropy
      · rw [if_pos hlt]
        exact le_of_lt hlt
      · rw [if_neg hlt]
    have h2 : c.entropy ≤ (if best.entropy < c.entropy then c else best).entropy := by
      by_cases hlt : best.entropy < c.entropy
      · rw [if_pos hlt]
      · rw [if_neg hlt]
        exact le_of_not_lt hlt
    have hhead := maxEntropyFrag_le cs (if best.entropy < c.entropy then c else best) _
      (List.mem_cons_self _ _)
    rcases List.mem_cons.mp hx with rfl | hx'
    · exact le_trans h1 hhead
    · rcases List.mem_cons.mp hx' with rfl | hx''
      · exact le_trans h2 hhead
      · exact maxEntropyFrag_le cs _ x (List.mem_cons_of_mem _ hx'')

theorem assembleFinalAnswer_empty (genesis : String) :
    assembleFinalAnswer [] genesis = emptyConsensus genesis := rfl

/-- Unfolding of `assembleFinalAnswer` on the non-degenerate path. -/
theorem assembleFinalAnswer_eq_of_sort (genesis : String) {fs : List CandidateFragment}
    {top : CandidateGroup} {rest : List CandidateGroup} {c0 : CandidateFragment}
    {cs : List CandidateFragment}
    (hs : sortGroups (scoredGroupsOf fs) = top :: rest) (hc : top.candidates = c0 :: cs) :
    assembleFinalAnswer fs genesis =
      { genesis := genesis
        selectedCandidate := c0.candidate
        score := toFixed3 top.score
        agentCount := top.agentCount
        roundCount := top.roundCount
        avgEntropy := toFixed3 top.avgEntropy
        rootAgent := (maxEntropyFrag c0 cs).agentId
        rootEntropy := toFixed3 (maxEntropyFrag c0 cs).entropy
        allGroups := top :: rest } := by
  unfold assembleFinalAnswer
  rw [hs]
  dsimp only
  rw [hc]

theorem exists_sort_decomposition {fs : List CandidateFragment} (h : fs ≠ []) :
    ∃ top rest c0 cs, sortGroups (scoredGroupsOf fs) = top :: rest ∧
      top.candidates = c0 :: cs ∧
      top.candidates = fs.filter (fun c => prefixKey c = top.key) := by
  have hne : scoredGroupsOf fs ≠ [] := scoredGroupsOf_ne_nil h
  have hsne : sortGroups (scoredGroupsOf fs) ≠ [] := by
    intro hnil
    exact hne ((hnil ▸ sortGroups_perm (scoredGroupsOf fs)).symm.eq_nil)
  obtain ⟨top, rest, hs⟩ := List.exists_cons_of_ne_nil hsne
  have htop_mem : top ∈ scoredGroupsOf fs :=
    (sortGroups_perm (scoredGroupsOf fs)).mem_iff.mp (by rw [hs]; exact List.mem_cons_self _ _)
  have hfil := (scoredGroups_spec fs top htop_mem).1
  obtain ⟨kg, hkg, hG⟩ := List.mem_map.mp htop_mem
  have hkey : top.key ∈ (groupFragments fs).map Prod.fst := by
    rw [← hG]
    exact List.mem_map_of_mem Prod.fst hkg
  rw [keys_groupFragments, mem_firstSeenDedup] at hkey
  obtain ⟨c, hc, hck⟩ := List.mem_map.mp hkey
  have hcf : c ∈ top.candidates := by
    rw [hfil]
    exact List.mem_filter.mpr ⟨hc, by simp [hck]⟩
  obtain ⟨c0, cs, hcc⟩ :=
    List.exists_cons_of_ne_nil (fun hnil => absurd (hnil ▸ hcf) (List.not_mem_nil c))
  exact ⟨top, rest, c0, cs, hs, hcc, hfil⟩

/-- The statistics claim C1 asserts about each group of the assembler. -/
def GroupStats (fs : List CandidateFragment) (G : CandidateGroup) : Prop :=
  G.candidates = fs.filter (fun c => prefixKey c = G.key) ∧
  G.agentCount = (G.candidates.map CandidateFragment.agentId).toFinset.card ∧
  G.roundCount = (G.candidates.map CandidateFragment.round).toFinset.card ∧
  G.avgEntropy = (G.candidates.map CandidateFragment.entropy).sum / (G.candidates.length : ℚ) ∧
  G.score = (G.agentCount : ℚ) * 2 + (G.roundCount : ℚ) * (3/2) + G.avgEntropy * 3

/-- Two sample fragments sharing their candidate text (hence the same
100-character grouping key), from two agents, rounds 0 and 1, with
entropies 2.0 and 3.0. -/
def sampleFragA : CandidateFragment :=
  { agentId := "agent-0", origin := "o1", round := 0, candidate := "X", entropy := 2,
    timestamp := 0 }

def sampleFragB : CandidateFragment :=
  { agentId := "agent-1", origin := "o2", round := 1, candidate := "X", entropy := 3,
    timestamp := 1 }

/-- The single group the assembler forms from the two sample fragments. -/
def sampleGroup : CandidateGroup :=
  scoreGroup (prefixKey sampleFragA, pushFrag (pushFrag ⟨[], 0, [], []⟩ sampleFragA) sampleFragB)

/-- C1: the assembler partitions fragments by the first 100 characters of
their candidate text; per group, `agentCount`/`roundCount` are the numbers
of distinct agent ids/rounds, `avgEntropy` is the mean member entropy, and
`score = agentCount * 2 + roundCount * 1.5 + avgEntropy * 3`; on the
two-fragment scenario this yields one group with agentCount 2,
roundCount 2, avgEntropy 2.5 and score 14.5. -/
theorem claim_C1_grouping_scoring :
    (∀ (fs : List CandidateFragment), ∀ G ∈ scoredGroupsOf fs, GroupStats fs G) ∧
    (assembleFinalAnswer [sampleFragA, sampleFragB] "genesis0").allGroups.map
        (fun G => (G.agentCount, G.roundCount, G.avgEntropy, G.score)) =
      [(2, 2, 5/2, 29/2)] := by
  constructor
  · intro fs G hG
    exact scoredGroups_spec fs G hG
  · simp [assembleFinalAnswer, scoredGroupsOf, groupFragments, insertFragment, scoreGroup,
      sortGroups, prefixKey, pushFrag, addElem, sampleFragA, sampleFragB, emptyConsensus]
    norm_num

/-- Witness for C1: the group statistics instantiated at the two sample
fragments. -/
theorem claim_C1_grouping_scoring_witness :
    GroupStats [sampleFragA, sampleFragB] sampleGroup :=
  claim_C1_grouping_scoring.1 [sampleFragA, sampleFragB] sampleGroup
    (show sampleGroup ∈ [sampleGroup] from List.mem_singleton.mpr rfl)

/-- The selection behaviour claim C2 asserts for a non-empty fragment
list. -/
def SelectionSpec (fs : List CandidateFragment) (genesis : String) : Prop :=
  ∃ (top : CandidateGroup) (rest : List CandidateGroup) (c0 root : CandidateFragment)
    (cs : List CandidateFragment),
    (assembleFinalAnswer fs genesis).allGroups = top :: rest ∧
    List.Pairwise scoreGE (top :: rest) ∧
    List.Perm (top :: rest) (scoredGroupsOf fs) ∧
    top.candidates = c0 :: cs ∧
    top.candidates = fs.filter (fun c => prefixKey c = top.key) ∧
    (assembleFinalAnswer fs genesis).selectedCandidate = c0.candidate ∧
    root ∈ top.candidates ∧
    (assembleFinalAnswer fs genesis).rootAgent = root.agentId ∧
    (assembleFinalAnswer fs genesis).rootEntropy = toFixed3 root.entropy ∧
    ∀ c ∈ top.candidates, c.entropy ≤ root.entropy

/-- C2: for a non-empty fragment list the assembler sorts the groups by
score descending; `selectedCandidate` is the first-inserted fragment of
the top group (group member order is the original collection order,
witnessed by the `filter` characterisation), while `rootAgent` and
`rootEntropy` report a maximum-entropy member of the same winning group,
which need not be the selected fragment. -/
theorem claim_C2_selection (fs : List CandidateFragment) (genesis : String) (h : fs ≠ []) :
    SelectionSpec fs genesis := by
  obtain ⟨top, rest, c0, cs, hs, hcc, hfil⟩ := exists_sort_decomposition h
  have heq := assembleFinalAnswer_eq_of_sort genesis hs hcc
  have hsorted := sortGroups_sorted (scoredGroupsOf fs)
  rw [hs] at hsorted
  have hperm := sortGroups_perm (scoredGroupsOf fs)
  rw [hs] at hperm
  refine ⟨top, rest, c0, maxEntropyFrag c0 cs, cs, ?_, hsorted, hperm, hcc, hfil, ?_, ?_, ?_, ?_, ?_⟩
  · rw [heq]
  · rw [heq]
  · rw [hcc]
    exact maxEntropyFrag_mem cs c0
  · rw [heq]
  · rw [heq]
  · intro c hcmem
    rw [hcc] at hcmem
    exact maxEntropyFrag_le cs c0 c hcmem

/-- Witness for C2: the selection property at the two sample fragments. -/
theorem claim_C2_selection_witness :
    SelectionSpec [sampleFragA, sampleFragB] "genesis0" :=
  claim_C2_selection [sampleFragA, sampleFragB] "genesis0" (by simp)

/-- C3: on zero fragments the assembler returns the sentinel result, with
the "no candidates" text, stringified zero numeric fields, rootAgent
"N/A" and an empty group list, as an ordinary return value. -/
theorem claim_C3_empty_sentinel (genesis : String) :
    assembleFinalAnswer [] genesis =
      { genesis := genesis
        selectedCandidate := "// No valid candidates were generated by the agents."
        score := "0"
        agentCount := 0
        roundCount := 0
        avgEntropy := "0"
        rootAgent := "N/A"
        rootEntropy := "0"
        allGroups := [] } := rfl

/-- C5: the assembler is a pure function of the fragment list and genesis
(running it twice gives identical results); at any fixed score, the
sorted `allGroups` preserves the original group order (stable
tie-breaking), and the groups themselves arise in first-seen key
insertion order. -/
theorem claim_C5_determinism (fs : List CandidateFragment) (genesis : String) :
    assembleFinalAnswer fs genesis = assembleFinalAnswer fs genesis ∧
    (∀ q : ℚ, (assembleFinalAnswer fs genesis).allGroups.filter (fun G => G.score = q) =
      (scoredGroupsOf fs).filter (fun G => G.score = q)) ∧
    (scoredGroupsOf fs).map CandidateGroup.key = firstSeenDedup (fs.map prefixKey) := by
  refine ⟨rfl, ?_, ?_⟩
  · intro q
    by_cases h : fs = []
    · subst h
      rfl
    · obtain ⟨top, rest, c0, cs, hs, hcc, _⟩ := exists_sort_decomposition h
      have heq := assembleFinalAnswer_eq_of_sort genesis hs hcc
      rw [heq]
      have := filter_score_sortGroups q (scoredGroupsOf fs)
      rw [hs] at this
      exact this
  · rw [scoredGroupsOf, List.map_map, ← keys_groupFragments]
    rfl

/-! ### `utils/helpers.ts` -/

/-- The base64 alphabet used by `btoa`. -/
def base64Alphabet : List Char :=
  "ABCDEFGHIJKLMNOPQRSTUVWXYZabcdefghijklmnopqrstuvwxyz0123456789+/".data

def b64Char (n : Nat) : Char := base64Alphabet.getD n 'A'

/-- Standard base64 encoding of a byte list (RFC 4648, `=`-padded),
three bytes to four output characters. -/
def b64EncodeBytes : List Nat → List Char
  | [] => []
  | [b1] =>
      let n := b1 * 65536
      [b64Char (n / 262144), b64Char (n / 4096 % 64), '=', '=']
  | [b1, b2] =>
      let n := b1 * 65536 + b2 * 256
      [b64Char (n / 262144), b64Char (n / 4096 % 64), b64Char (n / 64 % 64), '=']
  | b1 :: b2 :: b3 :: rest =>
      let n := b1 * 65536 + b2 * 256 + b3
      b64Char (n / 262144) :: b64Char (n / 4096 % 64) :: b64Char (n / 64 % 64) ::
        b64Char (n % 64) :: b64EncodeBytes rest

/-- Browser `btoa`: base64 of the code points of a Latin-1 string (the
only strings it is applied to here are ASCII; on larger code points the
browser function throws instead). -/
def btoa (s : String) : String :=
  String.mk (b64EncodeBytes (s.data.map Char.toNat))

/-- One round of the inner loop of `generateFractalHash`:
`current = btoa(current).substring(0, 16)`. -/
def fractalRound (cur : String) : String :=
  String.mk ((btoa cur).data.take 16)

/-- `generateFractalHash` from `utils/helpers.ts`.  The source reads the
clock itself — `const base = agentName + Date.now().toString()` — so the
wall-clock reading is modelled as the explicit argument `now`; round `i`
applies `i + 1` iterations of the encode step to `base`, the per-round
outputs are concatenated and the concatenation is encoded once more and
truncated to 32 characters. -/
def generateFractalHash (agentName : String) (now : String) (depth : Nat := 3) : String :=
  let base := agentName ++ now
  let hash := String.join ((List.range depth).map (fun i => Nat.iterate fractalRound (i + 1) base))
  String.mk ((btoa hash).data.take 32)

/-- `calculateEntropy` from `utils/helpers.ts`: Shannon entropy, in bits,
of the character-frequency distribution of the string (the sum of
`-p * log2(p)` over the distinct characters).  The JavaScript
floating-point arithmetic and `Math.log2` are idealised over `ℝ`. -/
noncomputable def calculateEntropy (hash : String) : ℝ :=
  ∑ c ∈ hash.data.toFinset,
    -(((hash.data.count c : ℝ) / (hash.data.length : ℝ)) *
      Real.logb 2 ((hash.data.count c : ℝ) / (hash.data.length : ℝ)))

/-- JavaScript `\w`: `[A-Za-z0-9_]`. -/
def isWordChar (c : Char) : Bool := c.isAlpha || c.isDigit || c = '_'

/-- The ASCII whitespace trimmed by `String.prototype.trim`. -/
def isJsWhitespace (c : Char) : Bool :=
  c = ' ' || c = '\t' || c = '\n' || c = '\r' || c = '\x0b' || c = '\x0c'

/-- `String.prototype.trim` on the character list. -/
def trimChars (l : List Char) : List Char :=
  ((l.dropWhile isJsWhitespace).reverse.dropWhile isJsWhitespace).reverse

def jsTrim (s : String) : String := String.mk (trimChars s.data)

/-- The anchored fence regex of `stripCodeBlock` — three backticks, an
optional run of word characters, a newline, a lazily captured body, a
newline, three backticks, anchored at both ends — returning the capture
group (the fence body).  With both anchors the split is forced: after the
opening backticks the greedy optional word run must be followed by a
newline, and the body is everything up to the final newline-plus-three-
backticks suffix. -/
def matchFence (t : List Char) : Option (List Char) :=
  match t with
  | c1 :: c2 :: c3 :: rest =>
      if c1 = '`' ∧ c2 = '`' ∧ c3 = '`' then
        match rest.dropWhile isWordChar with
        | c4 :: body' =>
            if c4 = '\n' then
              match body'.reverse with
              | e1 :: e2 :: e3 :: e4 :: rb =>
                  if e1 = '`' ∧ e2 = '`' ∧ e3 = '`' ∧ e4 = '\n' then some rb.reverse
                  else none
              | _ => none
            else none
        | [] => none
      else none
  | _ => none

/-- `stripCodeBlock` from `utils/helpers.ts`: trim the content, return
the trimmed capture group of the fence regex when it matches with a
non-empty (truthy) group, and the trimmed content otherwise. -/
def stripCodeBlock (content : String) : String :=
  let trimmed := trimChars content.data
  match matchFence trimmed with
  | some b => if b ≠ [] then String.mk (trimChars b) else String.mk trimmed
  | none => String.mk trimmed

/-! ### `constants.ts` and `services/geminiService.ts` -/

/-- `REASONING_STRATEGIES` from `constants.ts`. -/
def REASONING_STRATEGIES : List String :=
  ["Apply recursive optimization patterns",
   "Use quantum efficiency algorithms",
   "Implement fractal code structure",
   "Apply hyperthreaded reasoning",
   "Use entropy-based selection",
   "Apply mathematical transformation",
   "Implement parallel processing",
   "Use consensus validation",
   "Apply abstract syntax tree manipulation",
   "Implement heuristic code generation",
   "Use semantic code analysis",
   "Apply pattern recognition for refactoring",
   "Generate declarative programming structures",
   "Optimize for functional purity",
   "Implement aspect-oriented programming principles",
   "Utilize genetic algorithms for code evolution",
   "Employ symbolic execution for bug detection",
   "Transform imperative to functional paradigms",
   "Apply dependency graph optimization",
   "Integrate formal verification methods"]

/-- `const strategyIndex = (round * reasoningDepth) % REASONING_STRATEGIES.length`. -/
def strategyIndex (round reasoningDepth : Nat) : Nat :=
  (round * reasoningDepth) % REASONING_STRATEGIES.length

/-- `REASONING_STRATEGIES[strategyIndex]` (the index is always in
bounds). -/
def strategyFor (round reasoningDepth : Nat) : String :=
  REASONING_STRATEGIES.getD (strategyIndex round reasoningDepth) ""

/-- The success path of `runOrchestrationAgentStep`
(`services/geminiService.ts`): the provenance header followed by the
stripped response.  The rendering of
`calculateEntropy(agent.origin).toFixed(3)` — a floating-point
computation — is abstracted as the `entropyStr` argument. -/
def runOrchestrationAgentStepSuccess (agent : AgentInfo) (round : Nat)
    (reasoningDepth : Nat) (responseText : String) (entropyStr : String) : String :=
  "// Agent: " ++ agent.id ++ " | Round: " ++ toString (round + 1) ++ " | Strategy: " ++
    strategyFor round reasoningDepth ++ "\n// Seed: " ++
    String.mk (agent.origin.data.take 12) ++ " | Entropy: " ++ entropyStr ++ "\n" ++
    stripCodeBlock responseText

theorem length_b64EncodeBytes :
    ∀ bs : List Nat, (b64EncodeBytes bs).length = 4 * ((bs.length + 2) / 3)
  | [] => rfl
  | [_] => by simp [b64EncodeBytes]
  | [_, _] => by simp [b64EncodeBytes]
  | _ :: _ :: _ :: rest => by
    simp only [b64EncodeBytes, List.length_cons, length_b64EncodeBytes rest]
    omega

theorem length_btoa (s : String) : (btoa s).length = 4 * ((s.length + 2) / 3) := by
  rw [btoa, String.length_mk, length_b64EncodeBytes, List.length_map]
  rfl

theorem length_fractalRound {s : String} (h : 10 ≤ s.length) :
    (fractalRound s).length = 16 := by
  have hb := length_btoa s
  rw [fractalRound, String.length_mk, List.length_take]
  have hd : (btoa s).data.length = (btoa s).length := rfl
  rw [hd, hb]
  omega

theorem length_generateFractalHash {seed now : String} (h : 10 ≤ (seed ++ now).length) :
    (generateFractalHash seed now 3).length = 32 := by
  unfold generateFractalHash
  have e0 : (fractalRound (seed ++ now)).length = 16 := length_fractalRound h
  have e1 : (fractalRound (fractalRound (seed ++ now))).length = 16 :=
    length_fractalRound (by omega)
  have e2 : (fractalRound (fractalRound (fractalRound (seed ++ now)))).length = 16 :=
    length_fractalRound (by omega)
  have hr : List.range 3 = [0, 1, 2] := rfl
  rw [hr]
  simp only [List.map_cons, List.map_nil, String.join, List.foldl_cons, List.foldl_nil,
    Function.iterate_succ, Function.iterate_zero, Function.comp_apply, Function.id_def]
  rw [String.length_mk, List.length_take]
  have hb := length_btoa ("" ++ fractalRound (seed ++ now) ++
    fractalRound (fractalRound (seed ++ now)) ++
    fractalRound (fractalRound (fractalRound (seed ++ now))))
  rw [String.length_append, String.length_append, String.length_append] at hb
  have hdl : ∀ t : String, t.data.length = t.length := fun _ => rfl
  rw [hdl, hb, e0, e1, e2]
  rfl

/-- C6 counterexample: two calls of `generateFractalHash` with the same
seed `"s"` and depth `3`, made at clock readings `"1"` and `"2"`, return
different strings — the function folds `Date.now()` into its base
itself, so it is not a function of seed and depth alone. -/
theorem claim_C6_counterexample :
    generateFractalHash "s" "1" 3 ≠ generateFractalHash "s" "2" 3 := by decide

/-- C6 (amended): `generateFractalHash` is deterministic only for a fixed
seed, depth and wall-clock reading, because it appends `Date.now()` to
the seed internally; for the default depth 3 the result is a
32-character string whenever seed-plus-clock has at least 10 characters
(always in practice, `Date.now()` having 13 digits). -/
theorem claim_C6_amended (seed now : String) (depth : Nat) :
    (∀ now', now' = now →
      generateFractalHash seed now' depth = generateFractalHash seed now depth) ∧
    (10 ≤ (seed ++ now).length → depth = 3 →
      (generateFractalHash seed now depth).length = 32) := by
  refine ⟨fun now' h => by rw [h], fun hlen hd => ?_⟩
  subst hd
  exact length_generateFractalHash hlen

/-- Witness for C6: the amended property at seed `"agent"`, a 13-digit
clock reading, and depth 3. -/
theorem claim_C6_amended_witness :
    generateFractalHash "agent" "1700000000000" 3 =
      generateFractalHash "agent" "1700000000000" 3 ∧
    (generateFractalHash "agent" "1700000000000" 3).length = 32 :=
  ⟨(claim_C6_amended "agent" "1700000000000" 3).1 "1700000000000" rfl,
   (claim_C6_amended "agent" "1700000000000" 3).2 (by decide) rfl⟩

/-- C8: `calculateEntropy` is non-negative on every string, zero on the
empty string and on `"aaaa"`, and exactly `1` on `"ab"`; it is the
Shannon entropy in bits of the character-frequency distribution, a total
function. -/
theorem claim_C8_entropy :
    (∀ s : String, 0 ≤ calculateEntropy s) ∧
    calculateEntropy "" = 0 ∧
    calculateEntropy "aaaa" = 0 ∧
    calculateEntropy "ab" = 1 := by
  refine ⟨?_, ?_, ?_, ?_⟩
  · intro s
    unfold calculateEntropy
    apply Finset.sum_nonneg
    intro c hc
    rw [List.mem_toFinset] at hc
    have hcount : 0 < s.data.count c := List.count_pos_iff.mpr hc
    have hlen : s.data.count c ≤ s.data.length := List.count_le_length _ _
    have hlenpos : 0 < s.data.length := lt_of_lt_of_le hcount hlen
    have hppos : (0:ℝ) < (s.data.count c : ℝ) / (s.data.length : ℝ) :=
      div_pos (by exact_mod_cast hcount) (by exact_mod_cast hlenpos)
    have hple : (s.data.count c : ℝ) / (s.data.length : ℝ) ≤ 1 := by
      rw [div_le_one (by exact_mod_cast hlenpos)]
      exact_mod_cast hlen
    have hlog : Real.logb 2 ((s.data.count c : ℝ) / (s.data.length : ℝ)) ≤ 0 :=
      Real.logb_nonpos (by norm_num) (le_of_lt hppos) hple
    nlinarith
  · simp [calculateEntropy]
  · simp [calculateEntropy, List.count_cons, List.toFinset_cons]
    norm_num
  · simp [calculateEntropy, List.count_cons, List.toFinset_cons]
    norm_num [Finset.sum_insert, Finset.sum_singleton]

/-- The character list of a fenced response: three backticks, a language
tag, a newline, the body, a newline and three closing backticks — the
response shape named by the specification. -/
def fenceString (lang body : List Char) : String :=
  String.mk ('`' :: '`' :: '`' :: (lang ++ '\n' :: (body ++ ['\n', '`', '`', '`'])))

theorem trimChars_fence (lang body : List Char) :
    trimChars ('`' :: '`' :: '`' :: (lang ++ '\n' :: (body ++ ['\n', '`', '`', '`']))) =
      '`' :: '`' :: '`' :: (lang ++ '\n' :: (body ++ ['\n', '`', '`', '`'])) := by
  unfold trimChars
  simp [List.dropWhile, isJsWhitespace, List.reverse_append, List.dropWhile_append]

theorem matchFence_fence (lang body : List Char) (hlang : ∀ c ∈ lang, isWordChar c = true) :
    matchFence ('`' :: '`' :: '`' :: (lang ++ '\n' :: (body ++ ['\n', '`', '`', '`']))) =
      some body := by
  have hdrop : (lang ++ '\n' :: (body ++ ['\n', '`', '`', '`'])).dropWhile isWordChar =
      '\n' :: (body ++ ['\n', '`', '`', '`']) := by
    rw [List.dropWhile_append]
    have h0 : lang.dropWhile isWordChar = [] :=
      List.dropWhile_eq_nil_iff.mpr (fun c hc => hlang c hc)
    simp [h0, List.dropWhile, isWordChar]
  simp [matchFence, hdrop, List.reverse_append]

theorem stripCodeBlock_fence (lang body : List Char) (hlang : ∀ c ∈ lang, isWordChar c = true)
    (hbody : body ≠ []) :
    stripCodeBlock (fenceString lang body) = String.mk (trimChars body) := by
  rw [stripCodeBlock]
  show (match matchFence (trimChars (fenceString lang body).data) with
    | some b => if b ≠ [] then String.mk (trimChars b)
        else String.mk (trimChars (fenceString lang body).data)
    | none => String.mk (trimChars (fenceString lang body).data)) = _
  rw [show (fenceString lang body).data =
    '`' :: '`' :: '`' :: (lang ++ '\n' :: (body ++ ['\n', '`', '`', '`'])) from rfl]
  rw [trimChars_fence, matchFence_fence lang body hlang]
  simp [hbody]

/-- C9 counterexample: a response of the fenced form with an empty body
(opening backticks, newline, newline, closing backticks) is returned
whole by `stripCodeBlock` — the empty capture group is falsy — not as
its (empty) body, contradicting the claim that such a response yields
just the body. -/
theorem claim_C9_counterexample :
    stripCodeBlock (fenceString [] []) = "```\n\n```" ∧ ("```\n\n```" : String) ≠ "" := by
  decide

/-- C9 (amended): the successful agent step prefixes the provenance
comment line (agent id, 1-indexed round, strategy, 12-character origin
prefix, entropy) to the stripped response; a fenced response with a
word-character language tag and a non-empty body yields the body trimmed
of surrounding whitespace, and a response the fence regex does not match
is used unchanged after trimming. -/
theorem claim_C9_amended (agent : AgentInfo) (round reasoningDepth : Nat)
    (resp entropyStr : String) :
    runOrchestrationAgentStepSuccess agent round reasoningDepth resp entropyStr =
      "// Agent: " ++ agent.id ++ " | Round: " ++ toString (round + 1) ++ " | Strategy: " ++
        strategyFor round reasoningDepth ++ "\n// Seed: " ++
        String.mk (agent.origin.data.take 12) ++ " | Entropy: " ++ entropyStr ++ "\n" ++
        stripCodeBlock resp ∧
    (∀ lang body : List Char, (∀ c ∈ lang, isWordChar c = true) → body ≠ [] →
      resp = fenceString lang body → stripCodeBlock resp = String.mk (trimChars body)) ∧
    (matchFence (trimChars resp.data) = none → stripCodeBlock resp = jsTrim resp) := by
  refine ⟨rfl, ?_, ?_⟩
  · intro lang body hlang hbody hresp
    rw [hresp]
    exact stripCodeBlock_fence lang body hlang hbody
  · intro hnone
    simp [stripCodeBlock, jsTrim, hnone]

/-- Witness for C9: stripping a concrete fenced response with tag `js`
and body `" x"` yields `"x"`. -/
theorem claim_C9_amended_witness :
    stripCodeBlock (fenceString ['j', 's'] [' ', 'x']) = String.mk (trimChars [' ', 'x']) :=
  (claim_C9_amended ⟨"agent-0", "originhash"⟩ 0 3 (fenceString ['j', 's'] [' ', 'x'])
    "2.000").2.1 ['j', 's'] [' ', 'x'] (by decide) (by decide) rfl

/-- C10: in round 0 the strategy index `(round * reasoningDepth) mod 20`
is 0 for every reasoning depth — the index does not involve the agent —
so every agent in the first round receives the first strategy of the
fixed list. -/
theorem claim_C10_round0_strategy (reasoningDepth : Nat) :
    strategyIndex 0 reasoningDepth = 0 ∧
    strategyFor 0 reasoningDepth = "Apply recursive optimization patterns" := by
  have h : strategyIndex 0 reasoningDepth = 0 := by simp [strategyIndex]
  exact ⟨h, by rw [strategyFor, h]; rfl⟩

/-! ### Orchestration state and round scheduler (`App.tsx`) -/

/-- `AgentType` from `types.ts`: the five fixed agent panels. -/
inductive AgentType
  | nexus | cognito | relay | sentinel | echo
deriving DecidableEq, Repr

/-- `LogType` from `types.ts`. -/
inductive LogType
  | info | genesis | origin | event | fragment | consensus
deriving DecidableEq, Repr

/-- An `OrchestrationLogEntry`; the display timestamp
(`toLocaleTimeString`) is not modelled.  The HTML markup the source
embeds in some messages (spinner divs, colour spans) is omitted from the
modelled message strings. -/
structure LogEntry where
  message : String
  type : LogType
deriving DecidableEq, Repr

/-- One agent panel of the `agents` state map. -/
structure AgentPanel where
  content : String
  log : List LogEntry
  isActive : Bool
deriving DecidableEq, Repr

/-- The slice of the App state that the orchestrator reads and writes:
the per-agent panels, the in-progress flag and the consensus result
(editor-surface fields do not participate). -/
structure AppState where
  agents : AgentType → AgentPanel
  isGenerating : Bool
  consensusResult : Option ConsensusResult

/-- `addLog`: append an entry to one agent's log. -/
def addLog (t : AgentType) (message : String) (ty : LogType) (s : AppState) : AppState :=
  { s with agents := fun a =>
      if a = t then
        { s.agents a with log := (s.agents a).log ++ [{ message := message, type := ty }] }
      else s.agents a }

/-- `setAgentStatus` (the source defaults `isActive` to `false` when the
call site omits it). -/
def setAgentStatus (t : AgentType) (content : String) (isActive : Bool) (s : AppState) :
    AppState :=
  { s with agents := fun a =>
      if a = t then { s.agents a with content := content, isActive := isActive }
      else s.agents a }

/-- The panel contents of `INITIAL_AGENTS_STATE` in `constants.ts`. -/
def initialContent : AgentType → String
  | .nexus => "Idle. Awaiting quantum command."
  | .cognito => "Ready"
  | .relay => "Ready"
  | .sentinel => "Ready"
  | .echo => "Awaiting assembly instructions..."

def initialPanel (t : AgentType) : AgentPanel :=
  { content := initialContent t, log := [], isActive := false }

/-- `Object.values(AgentType)` in declaration order. -/
def allAgentTypes : List AgentType :=
  [AgentType.nexus, AgentType.cognito, AgentType.relay, AgentType.sentinel, AgentType.echo]

/-- The inputs of one orchestration run.  The SHA-256 digest, the initial
fractal seeding (which reads the clock itself), the numeric value of
`calculateEntropy` consumed downstream, the external collaborator call,
the random event id and the clock readings are all impure or external
and enter as parameters. -/
structure OrchestratorEnv where
  digest : String → String
  seedHash : String → String
  entropyQ : String → ℚ
  step : AgentInfo → Nat → Except String String
  eventId : String
  nowStr : String
  now : Nat
  editorContext : String
  agentCount : Nat
  maxRounds : Nat

/-- One agent's work inside a round: rotate the origin with
`sha256(agent.origin + genesisHash + round)`, store it back on the
agent, call the collaborator, and on success build the Candidate
Fragment — whose `entropy` is computed from the agent's *new* origin;
a collaborator error propagates to the round. -/
def runAgentStep (env : OrchestratorEnv) (genesis : String) (round : Nat) (agent : AgentInfo)
    (s : AppState) : AppState × Except String (AgentInfo × CandidateFragment) :=
  let newOrigin := env.digest (agent.origin ++ genesis ++ toString round)
  let agentRotated : AgentInfo := { agent with origin := newOrigin }
  match env.step agentRotated round with
  | Except.error e => (s, Except.error e)
  | Except.ok content =>
      let fragment : CandidateFragment :=
        { agentId := agentRotated.id
          origin := agentRotated.origin
          round := round
          candidate := content
          entropy := env.entropyQ agentRotated.origin
          timestamp := env.now }
      (addLog AgentType.sentinel
        ("Fragment from " ++ agentRotated.id ++ " (round " ++ toString (round + 1) ++ ")")
        LogType.fragment s,
       Except.ok (agentRotated, fragment))

/-- The per-round fan-out over the agents.  In the source the agent
steps run concurrently and fragments are pushed in completion order; the
model serialises them in agent order (none of the claims below depends
on the order), and a failing step aborts the round as a `Promise.all`
rejection does. -/
def runRoundAgents (env : OrchestratorEnv) (genesis : String) (round : Nat) :
    List AgentInfo → AppState → AppState × Except String (List AgentInfo × List CandidateFragment)
  | [], s => (s, Except.ok ([], []))
  | a :: as, s =>
      match runAgentStep env genesis round a s with
      | (s', Except.error e) => (s', Except.error e)
      | (s', Except.ok (a', f)) =>
          match runRoundAgents env genesis round as s' with
          | (s'', Except.error e) => (s'', Except.error e)
          | (s'', Except.ok (as', fsr)) => (s'', Except.ok (a' :: as', f :: fsr))

/-- The strictly sequential round loop over the round indices. -/
def runRounds (env : OrchestratorEnv) (genesis : String) :
    List Nat → List AgentInfo → List CandidateFragment → AppState →
      AppState × Except String (List CandidateFragment)
  | [], _, acc, s => (s, Except.ok acc)
  | round :: rest, agents, acc, s =>
      let s₁ := addLog AgentType.relay
        ("Round " ++ toString (round + 1) ++ "/" ++ toString env.maxRounds ++ "...")
        LogType.info s
      let s₂ := setAgentStatus AgentType.relay
        ("Processing round " ++ toString (round + 1) ++ " with " ++ toString env.agentCount ++
          " agents...") true s₁
      match runRoundAgents env genesis round agents s₂ with
      | (s', Except.error e) => (s', Except.error e)
      | (s', Except.ok (agentsNext, frs)) => runRounds env genesis rest agentsNext (acc ++ frs) s'

/-- The agents created at seeding:
`origin = generateFractalHash(genesisHash + agentId)` (the clock folded
in by the helper is part of the opaque `seedHash`). -/
def seededAgents (env : OrchestratorEnv) (genesisHash : String) : List AgentInfo :=
  (List.range env.agentCount).map (fun i =>
    { id := "agent-" ++ toString i
      origin := env.seedHash (genesisHash ++ "agent-" ++ toString i) })

/-- The logging performed before the round loop starts. -/
def preRoundState (env : OrchestratorEnv) (genesisHash : String) (agents : List AgentInfo)
    (s : AppState) : AppState :=
  let s := addLog AgentType.nexus "Generating genesis hash from current code..."
    LogType.genesis s
  let s := addLog AgentType.nexus ("Genesis: " ++ String.mk (genesisHash.data.take 16) ++ "...")
    LogType.genesis s
  let s := addLog AgentType.nexus "Generating origin hashes for agents..." LogType.origin s
  let s := agents.foldl (fun st a =>
    addLog AgentType.nexus (a.id ++ ": " ++ String.mk (a.origin.data.take 12) ++ "...")
      LogType.origin st) s
  let s := addLog AgentType.nexus "Creating event log entry..." LogType.event s
  let s := addLog AgentType.nexus ("Event: " ++ env.eventId ++ " logged") LogType.event s
  setAgentStatus AgentType.cognito
    ("Spawning " ++ toString env.agentCount ++ " fractal agents...") true s

/-- The tail of the `try` block after all rounds: assembly, consensus
logging, and storing the consensus result in the state. -/
def postAssemblyState (env : OrchestratorEnv) (genesisHash : String)
    (allCandidates : List CandidateFragment) (s : AppState) :
    AppState × Except String ConsensusResult :=
  let s := addLog AgentType.sentinel "Assembling final consensus..." LogType.info s
  let s := setAgentStatus AgentType.sentinel
    ("Evaluating " ++ toString allCandidates.length ++ " fragments for consensus...") true s
  let consensus := assembleFinalAnswer allCandidates genesisHash
  let s := setAgentStatus AgentType.echo "Reassembling script from consensus..." true s
  let s := addLog AgentType.echo
    ("Assembly started. Verified Genesis: " ++ String.mk (consensus.genesis.data.take 12) ++
      "...") LogType.consensus s
  let s := addLog AgentType.echo
    ("Selected candidate from Agent " ++ consensus.rootAgent ++ " with score " ++
      consensus.score ++ ".") LogType.consensus s
  let s := addLog AgentType.echo
    ("Verified final code hash: " ++
      String.mk ((env.digest consensus.selectedCandidate).data.take 12) ++ "...")
    LogType.consensus s
  let s := addLog AgentType.echo "Reassembly complete. Quantum script generated."
    LogType.consensus s
  ({ s with consensusResult := some consensus }, Except.ok consensus)

/-- The body of the `try` block of `runEnhancedOrchestrator`. -/
def orchestratorBody (env : OrchestratorEnv) (s : AppState) :
    AppState × Except String ConsensusResult :=
  let genesisHash := env.digest ("GENESIS" ++ env.nowStr ++ env.editorContext)
  let agents := seededAgents env genesisHash
  match runRounds env genesisHash (List.range env.maxRounds) agents []
    (preRoundState env genesisHash agents s) with
  | (s', Except.error e) => (s', Except.error e)
  | (s', Except.ok allCandidates) => postAssemblyState env genesisHash allCandidates s'

/-- The state reset performed when a run starts: in-progress flag set,
result cleared, all panels reset. -/
def startState (s0 : AppState) : AppState :=
  setAgentStatus AgentType.nexus "Starting enhanced quantum orchestration..." true
    { s0 with isGenerating := true, consensusResult := none, agents := initialPanel }

/-- The single top-level `catch` of `runEnhancedOrchestrator`: on an
error the message is logged to the ECHO panel and ECHO's status is set
to an error message; the result field is left untouched. -/
def runCaught (env : OrchestratorEnv) (s0 : AppState) : AppState :=
  match orchestratorBody env (startState s0) with
  | (s, Except.ok _) => s
  | (s, Except.error e) =>
      setAgentStatus AgentType.echo ("Error: " ++ e) false
        (addLog AgentType.echo ("Orchestrator Error: " ++ e) LogType.info s)

/-- The `finally` block: reset every panel to its idle content and
inactive, set the NEXUS completion message, and clear the in-progress
flag. -/
def finalizeRun (s : AppState) : AppState :=
  let s := allAgentTypes.foldl (fun st t => setAgentStatus t (initialContent t) false st) s
  let s := setAgentStatus AgentType.nexus "Enhanced orchestration complete" false s
  { s with isGenerating := false }

/-- `runEnhancedOrchestrator`: the single-flight guard, then the body
with its catch, then the unconditional finalizer. -/
def runEnhancedOrchestrator (env : OrchestratorEnv) (s0 : AppState) : AppState :=
  if s0.isGenerating then s0
  else finalizeRun (runCaught env s0)

/-- The rotation applied to an agent's origin at the start of its step
in a round: `sha256(origin + genesisHash + round)`. -/
def rotatedOrigin (digest : String → String) (genesis origin : String) (round : Nat) : String :=
  digest (origin ++ genesis ++ toString round)

/-- The origin an agent uses in (0-indexed) round `k`, as a function of
the digest, the genesis hash and the seeded round-0 origin. -/
def originUsed (digest : String → String) (genesis origin0 : String) : Nat → String
  | 0 => rotatedOrigin digest genesis origin0 0
  | k + 1 => rotatedOrigin digest genesis (originUsed digest genesis origin0 k) (k + 1)

theorem addLog_consensusResult (t : AgentType) (m : String) (ty : LogType) (s : AppState) :
    (addLog t m ty s).consensusResult = s.consensusResult := rfl

theorem setAgentStatus_consensusResult (t : AgentType) (c : String) (b : Bool) (s : AppState) :
    (setAgentStatus t c b s).consensusResult = s.consensusResult := rfl

theorem runAgentStep_consensusResult (env : OrchestratorEnv) (genesis : String) (round : Nat)
    (agent : AgentInfo) (s : AppState) :
    ((runAgentStep env genesis round agent s).1).consensusResult = s.consensusResult := by
  unfold runAgentStep
  dsimp only
  split <;> rfl

theorem runRoundAgents_consensusResult (env : OrchestratorEnv) (genesis : String) (round : Nat) :
    ∀ (agents : List AgentInfo) (s : AppState),
      ((runRoundAgents env genesis round agents s).1).consensusResult = s.consensusResult
  | [], _ => rfl
  | a :: as, s => by
    unfold runRoundAgents
    rcases h1 : runAgentStep env genesis round a s with ⟨s', r⟩
    have hs' : s'.consensusResult = s.consensusResult := by
      have h := runAgentStep_consensusResult env genesis round a s
      rw [h1] at h
      exact h
    cases r with
    | error e => simpa using hs'
    | ok p =>
      rcases p with ⟨a', f⟩
      dsimp only
      rcases h2 : runRoundAgents env genesis round as s' with ⟨s'', r2⟩
      have hs'' : s''.consensusResult = s'.consensusResult := by
        have h := runRoundAgents_consensusResult env genesis round as s'
        rw [h2] at h
        exact h
      cases r2 <;> simp [hs', hs'']

theorem runRounds_consensusResult (env : OrchestratorEnv) (genesis : String) :
    ∀ (rounds : List Nat) (agents : List AgentInfo) (acc : List CandidateFragment)
      (s : AppState),
      ((runRounds env genesis rounds agents acc s).1).consensusResult = s.consensusResult
  | [], _, _, _ => rfl
  | round :: rest, agents, acc, s => by
    unfold runRounds
    dsimp only
    rcases h1 : runRoundAgents env genesis round agents
      (setAgentStatus AgentType.relay
        ("Processing round " ++ toString (round + 1) ++ " with " ++ toString env.agentCount ++
          " agents...") true
        (addLog AgentType.relay
          ("Round " ++ toString (round + 1) ++ "/" ++ toString env.maxRounds ++ "...")
          LogType.info s)) with ⟨s', r⟩
    have hs' : s'.consensusResult = s.consensusResult := by
      have h := runRoundAgents_consensusResult env genesis round agents
        (setAgentStatus AgentType.relay
          ("Processing round " ++ toString (round + 1) ++ " with " ++ toString env.agentCount ++
            " agents...") true
          (addLog AgentType.relay
            ("Round " ++ toString (round + 1) ++ "/" ++ toString env.maxRounds ++ "...")
            LogType.info s))
      rw [h1] at h
      exact h
    cases r with
    | error e => simpa using hs'
    | ok p =>
      rcases p with ⟨agentsNext, frs⟩
      have h := runRounds_consensusResult env genesis rest agentsNext (acc ++ frs) s'
      simpa [h] using hs'

theorem foldl_addLog_consensusResult (f : AppState → AgentInfo → AppState)
    (hf : ∀ s a, (f s a).consensusResult = s.consensusResult) :
    ∀ (l : List AgentInfo) (s : AppState), (l.foldl f s).consensusResult = s.consensusResult
  | [], _ => rfl
  | a :: l, s => by
    rw [List.foldl_cons, foldl_addLog_consensusResult f hf l (f s a), hf]

theorem preRoundState_consensusResult (env : OrchestratorEnv) (g : String)
    (agents : List AgentInfo) (s : AppState) :
    (preRoundState env g agents s).consensusResult = s.consensusResult := by
  unfold preRoundState
  dsimp only
  rw [setAgentStatus_consensusResult, addLog_consensusResult, addLog_consensusResult]
  have hfold := foldl_addLog_consensusResult
    (fun st a =>
      addLog AgentType.nexus (a.id ++ ": " ++ String.mk (a.origin.data.take 12) ++ "...")
        LogType.origin st)
    (fun _ _ => rfl) agents
  rw [hfold]
  rfl

theorem postAssemblyState_snd (env : OrchestratorEnv) (g : String)
    (cand : List CandidateFragment) (s : AppState) :
    (postAssemblyState env g cand s).2 = Except.ok (assembleFinalAnswer cand g) := rfl

theorem orchestratorBody_error_consensusResult {env : OrchestratorEnv} {s : AppState}
    {e : String} (h : (orchestratorBody env s).2 = Except.error e) :
    (orchestratorBody env s).1.consensusResult = s.consensusResult := by
  unfold orchestratorBody at h ⊢
  dsimp only at h ⊢
  rcases hr : runRounds env (env.digest ("GENESIS" ++ env.nowStr ++ env.editorContext))
    (List.range env.maxRounds)
    (seededAgents env (env.digest ("GENESIS" ++ env.nowStr ++ env.editorContext))) []
    (preRoundState env (env.digest ("GENESIS" ++ env.nowStr ++ env.editorContext))
      (seededAgents env (env.digest ("GENESIS" ++ env.nowStr ++ env.editorContext))) s)
    with ⟨s', r⟩
  have hs' : s'.consensusResult = s.consensusResult := by
    have hh := runRounds_consensusResult env
      (env.digest ("GENESIS" ++ env.nowStr ++ env.editorContext)) (List.range env.maxRounds)
      (seededAgents env (env.digest ("GENESIS" ++ env.nowStr ++ env.editorContext))) []
      (preRoundState env (env.digest ("GENESIS" ++ env.nowStr ++ env.editorContext))
        (seededAgents env (env.digest ("GENESIS" ++ env.nowStr ++ env.editorContext))) s)
    rw [hr, preRoundState_consensusResult] at hh
    exact hh
  cases r with
  | error e' => simpa using hs'
  | ok cand =>
    rw [hr] at h
    dsimp only at h
    rw [postAssemblyState_snd] at h
    exact absurd h (by simp)

theorem setAgentStatus_log (t : AgentType) (c : String) (b : Bool) (s : AppState)
    (t' : AgentType) : ((setAgentStatus t c b s).agents t').log = (s.agents t').log := by
  by_cases h : t' = t <;> simp [setAgentStatus, h]

theorem setAgentStatus_content_self (t : AgentType) (c : String) (b : Bool) (s : AppState) :
    ((setAgentStatus t c b s).agents t).content = c := by
  simp [setAgentStatus]

theorem addLog_log_self (t : AgentType) (m : String) (ty : LogType) (s : AppState) :
    ((addLog t m ty s).agents t).log = (s.agents t).log ++ [{ message := m, type := ty }] := by
  simp [addLog]

theorem finalizeRun_log (s : AppState) (t : AgentType) :
    ((finalizeRun s).agents t).log = (s.agents t).log := by
  simp [finalizeRun, allAgentTypes, List.foldl_cons, List.foldl_nil, setAgentStatus_log]

theorem finalizeRun_isGenerating (s : AppState) : (finalizeRun s).isGenerating = false := rfl

theorem finalizeRun_consensusResult (s : AppState) :
    (finalizeRun s).consensusResult = s.consensusResult := rfl

theorem startState_consensusResult (s0 : AppState) :
    (startState s0).consensusResult = none := rfl

/-- C7: when a run (entered with the in-progress flag clear) throws
anywhere in its body, the single top-level catch sets the ECHO panel's
status to an error message and appends an error entry to its log; the
run reaches the unconditional finalizer, after which the in-progress
flag is false (in every run, failed or not) and the consensus result is
still `none` — no fragment collected in earlier rounds reaches any
result. -/
theorem claim_C7_failure (env : OrchestratorEnv) (s0 : AppState)
    (hidle : s0.isGenerating = false) :
    (runEnhancedOrchestrator env s0).isGenerating = false ∧
    ∀ e, (orchestratorBody env (startState s0)).2 = Except.error e →
      ((runCaught env s0).agents AgentType.echo).content = "Error: " ++ e ∧
      ({ message := "Orchestrator Error: " ++ e, type := LogType.info } : LogEntry) ∈
        ((runEnhancedOrchestrator env s0).agents AgentType.echo).log ∧
      (runEnhancedOrchestrator env s0).consensusResult = none := by
  have hrun : runEnhancedOrchestrator env s0 = finalizeRun (runCaught env s0) := by
    simp [runEnhancedOrchestrator, hidle]
  refine ⟨by rw [hrun]; exact finalizeRun_isGenerating _, ?_⟩
  intro e herr
  have hcaught : runCaught env s0 =
      setAgentStatus AgentType.echo ("Error: " ++ e) false
        (addLog AgentType.echo ("Orchestrator Error: " ++ e) LogType.info
          (orchestratorBody env (startState s0)).1) := by
    unfold runCaught
    rcases hb : orchestratorBody env (startState s0) with ⟨s₁, r⟩
    rw [hb] at herr
    dsimp only at herr ⊢
    rw [herr]
  have hres : (orchestratorBody env (startState s0)).1.consensusResult = none := by
    rw [orchestratorBody_error_consensusResult herr, startState_consensusResult]
  refine ⟨?_, ?_, ?_⟩
  · rw [hcaught]
    exact setAgentStatus_content_self _ _ _ _
  · rw [hrun, finalizeRun_log, hcaught, setAgentStatus_log, addLog_log_self]
    exact List.mem_append_right _ (List.mem_singleton.mpr rfl)
  · rw [hrun, finalizeRun_consensusResult, hcaught, setAgentStatus_consensusResult,
      addLog_consensusResult, hres]

def stateIdle : AppState :=
  { agents := initialPanel, isGenerating := false, consensusResult := none }

def envFail : OrchestratorEnv :=
  { digest := fun _ => "d", seedHash := fun x => x, entropyQ := fun _ => 0
    step := fun _ _ => Except.error "boom", eventId := "ev", nowStr := "0", now := 0
    editorContext := "", agentCount := 1, maxRounds := 1 }

/-- Witness for C7: a concrete run whose collaborator fails
immediately. -/
theorem claim_C7_failure_witness :
    (runEnhancedOrchestrator envFail stateIdle).isGenerating = false ∧
    ((runCaught envFail stateIdle).agents AgentType.echo).content = "Error: " ++ "boom" ∧
    ({ message := "Orchestrator Error: " ++ "boom", type := LogType.info } : LogEntry) ∈
      ((runEnhancedOrchestrator envFail stateIdle).agents AgentType.echo).log ∧
    (runEnhancedOrchestrator envFail stateIdle).consensusResult = none := by
  have h := claim_C7_failure envFail stateIdle rfl
  exact ⟨h.1, h.2 "boom" rfl⟩


/-- C4: each agent step rotates the origin to
`digest(origin ++ genesisHash ++ round)` and records on the fragment
that new origin and an entropy computed from it; the per-round origin
sequence obeys the deterministic recurrence
`originUsed (k+1) = digest (originUsed k ++ genesis ++ toString (k+1))`,
a function of the previous origin, the genesis hash and the round
counter alone, so equal genesis and round-0 origins replay the identical
origin sequence. -/
theorem claim_C4_rotation :
    (∀ (env : OrchestratorEnv) (genesis : String) (agent : AgentInfo) (round : Nat)
       (s : AppState) (content : String),
      env.step { agent with origin := rotatedOrigin env.digest genesis agent.origin round }
          round = Except.ok content →
      ∃ a' f, (runAgentStep env genesis round agent s).2 = Except.ok (a', f) ∧
        a'.origin = rotatedOrigin env.digest genesis agent.origin round ∧
        f.origin = a'.origin ∧
        f.entropy = env.entropyQ a'.origin) ∧
    (∀ (digest : String → String) (genesis origin0 : String) (k : Nat),
      originUsed digest genesis origin0 (k + 1) =
        digest (originUsed digest genesis origin0 k ++ genesis ++ toString (k + 1))) ∧
    (∀ (digest : String → String) (genesis genesisR origin0 origin0R : String),
      genesis = genesisR → origin0 = origin0R →
      ∀ k, originUsed digest genesis origin0 k = originUsed digest genesisR origin0R k) := by
  refine ⟨?_, fun d g o0 k => rfl, ?_⟩
  · intro env genesis agent round s content h
    rw [rotatedOrigin] at h
    refine ⟨{ agent with origin := env.digest (agent.origin ++ genesis ++ toString round) },
      { agentId := agent.id
        origin := env.digest (agent.origin ++ genesis ++ toString round)
        round := round
        candidate := content
        entropy := env.entropyQ (env.digest (agent.origin ++ genesis ++ toString round))
        timestamp := env.now }, ?_, rfl, rfl, rfl⟩
    unfold runAgentStep
    dsimp only
    rw [h]
  · intro d g gR o0 o0R hg ho k
    rw [hg, ho]

def envOkC4 : OrchestratorEnv :=
  { digest := fun x => x, seedHash := fun x => x, entropyQ := fun _ => 0
    step := fun _ _ => Except.ok "c", eventId := "ev", nowStr := "0", now := 0
    editorContext := "", agentCount := 1, maxRounds := 1 }

def stateIdleC4 : AppState :=
  { agents := initialPanel, isGenerating := false, consensusResult := none }

/-- Witness for C4: the rotation property at a concrete environment
whose collaborator answers `"c"`. -/
theorem claim_C4_rotation_witness :
    ∃ a' f, (runAgentStep envOkC4 "g" 0 { id := "agent-0", origin := "o" } stateIdleC4).2 =
        Except.ok (a', f) ∧
      a'.origin = rotatedOrigin envOkC4.digest "g" "o" 0 ∧
      f.origin = a'.origin ∧
      f.entropy = envOkC4.entropyQ a'.origin := by
  have h := claim_C4_rotation.1 envOkC4 "g" { id := "agent-0", origin := "o" } 0 stateIdleC4
    "c" rfl
  exact h

end QuantumEditor
